import Mathlib

/-!
Verification development for the obsidian-plugin-prettier repository.

The definitions below are shallow embeddings of the TypeScript sources:
- `src/formatter.ts` (structural rewrite passes and the format pipelines),
- `src/image-uploader.ts` (image upload pass),
with text modelled as `List Char`.  The `MagicString` mutation engine
(`src/utils/string.ts`) is not part of the provided sources; the few
primitives of it that the claims need are modelled from the spec and are
marked as such in their doc comments.
-/

/-- Text is modelled as a list of characters (UTF-16 code units of the
TypeScript strings; all examples stay in ASCII where the two coincide). -/
abbrev Text := List Char

/-- Character class of the JS regex `\s` (whitespace). -/
def isWS (c : Char) : Bool := c.isWhitespace

/-- Character class of the JS regex `[^\S\r\n]` (whitespace other than CR/LF). -/
def isLineWS (c : Char) : Bool := c.isWhitespace && !(c = '\r') && !(c = '\n')

/-- `content.current.split("\n")` from formatter.ts. -/
def splitLines (t : Text) : List Text := t.splitOn '\n'

/-- The fence marker string from formatter.ts (`line.trim().startsWith("...")`). -/
def fenceMarker : Text := "```".toList

/-- `line.trim().startsWith("...")` for the code fence marker (formatter.ts,
lines 194, 225, 269, 291): trimming the front and testing the three-backtick
marker. -/
def isFence (l : Text) : Bool := fenceMarker.isPrefixOf (l.dropWhile isWS)

/-- Match of the heading regex `^(\s*)(#+)(\s+)(.*)$` from formatter.ts
(`adjustHeaderLevels` uses the first three groups, `addHeaderNumbering` all
four): leading whitespace, a nonempty run of `#`, nonempty whitespace, rest. -/
def headerMatchFull (l : Text) : Option (Text × Text × Text × Text) :=
  let ind := l.takeWhile isWS
  let r1 := l.dropWhile isWS
  let hs := r1.takeWhile (fun c => c = '#')
  let r2 := r1.dropWhile (fun c => c = '#')
  let sp := r2.takeWhile isWS
  let tx := r2.dropWhile isWS
  if hs ≠ [] ∧ sp ≠ [] then some (ind, hs, sp, tx) else none

/-- One step of the `inCodeBlock` toggle in formatter.ts (lines 194-196 etc.):
a line whose trimmed form starts with three backticks flips the flag. -/
def toggleF (st : Bool) (l : Text) : Bool := if isFence l then !st else st

/-- The `inCodeBlock` state at the moment a given line is inspected by the
scanning loops of formatter.ts: the toggle of the line itself has already been
applied when the heading check runs. -/
def checkState : List Text → Nat → Bool → Bool
  | [], _, st => st
  | l :: _, 0, st => toggleF st l
  | l :: rest, i + 1, st => checkState rest i (toggleF st l)

/-- The `currentOffset` accumulation of the scanning loops (formatter.ts
lines 223, 248, 289, 368): the character offset of the line that follows a
given list of lines, each line contributing its length plus one for the
newline. -/
def lineOff (off : Nat) (A : List Text) : Nat :=
  A.foldl (fun n l => n + l.length + 1) off

/-- One line of the min-level / has-header scan shared by `adjustHeaderLevels`
(formatter.ts lines 190-207) and `addHeaderNumbering` (lines 266-281).  State:
(inCodeBlock, minLevel, hasHeader), with minLevel initialised to 100. -/
def scanStep (acc : Bool × Nat × Bool) (l : Text) : Bool × Nat × Bool :=
  let st := toggleF acc.1 l
  if st then (st, acc.2.1, acc.2.2)
  else
    match headerMatchFull l with
    | some (_, hs, _, _) =>
        (st, if hs.length < acc.2.1 then hs.length else acc.2.1, true)
    | none => (st, acc.2.1, acc.2.2)

/-- The minimum-heading-level scan of formatter.ts: returns
(minLevel, hasHeader), starting from (not-in-block, 100, no-header). -/
def scanMin (lines : List Text) : Nat × Bool :=
  let r := lines.foldl scanStep (false, 100, false)
  (r.2.1, r.2.2)

/-- An edit record {start, end, text} as pushed by the passes in formatter.ts
(the `end` field is called `stop` because `end` is a Lean keyword). -/
structure Edit where
  start : Nat
  stop : Nat
  text : Text
deriving DecidableEq

/-- Modelled from the spec: the tracked-offset remap of `MagicString.update`
(src/utils/string.ts is not among the provided sources).  Spec sections 4.2/7:
an offset strictly before the span is unchanged, an offset at or past the end
shifts by the length delta, an offset inside the replaced span is pinned to the
span start, and the sentinel -1 short-circuits unchanged. -/
def remapUpdate (s e len : Nat) (T : Int) : Int :=
  if T = -1 then -1
  else if T < (s : Int) then T
  else if (e : Int) ≤ T then T + (len : Int) - ((e : Int) - (s : Int))
  else (s : Int)

/-- Modelled from the spec: the tracked-offset remap of `MagicString.delete`
(zero-length replacement case of the update rule). -/
def remapDelete (s e : Nat) (T : Int) : Int :=
  if T = -1 then -1
  else if T < (s : Int) then T
  else if (e : Int) ≤ T then T - ((e : Int) - (s : Int))
  else (s : Int)

/-- Modelled from the spec: the tracked-offset remap of `MagicString.insert`
(spec section 4.2: a zero-width edit shifts an offset at or after the insertion
point by the inserted length and leaves offsets strictly before it untouched;
-1 short-circuits). -/
def remapInsert (k len : Nat) (T : Int) : Int :=
  if T = -1 then -1
  else if T < (k : Int) then T
  else T + (len : Int)

/-- Modelled from the spec: splicing a replacement into the current buffer at a
span expressed in the pass's own starting coordinates (edits are applied
back-to-front so earlier spans stay valid, spec sections 4.2/4.5). -/
def spliceText (cur : Text) (s e : Nat) (txt : Text) : Text :=
  cur.take s ++ txt ++ cur.drop e

/-- Applying one recorded edit through `MagicString.update`, as the passes of
formatter.ts do in their final reverse loops. -/
def applyEdit (acc : Text × Int) (e : Edit) : Text × Int :=
  (spliceText acc.1 e.start e.stop e.text,
   remapUpdate e.start e.stop e.text.length acc.2)

/-- The edit of `adjustHeaderLevels` on one non-fenced line (formatter.ts
lines 230-245): a heading whose shifted level stays within [1,6] has its `#`
run rewritten. -/
def adjustLineEdit (shift : Int) (l : Text) (off : Nat) : List Edit :=
  match headerMatchFull l with
  | some (ind, hs, _, _) =>
      let nl : Int := (hs.length : Int) + shift
      if nl ≠ (hs.length : Int) ∧ 1 ≤ nl ∧ nl ≤ 6 then
        [⟨off + ind.length, off + ind.length + hs.length,
          List.replicate nl.toNat '#'⟩]
      else []
  | none => []

/-- The edit list produced by the second loop of `adjustHeaderLevels`
(formatter.ts lines 222-249), in forward document order.  `shift` is
`targetStartLevel - minLevel`. -/
def adjustEditsAux (shift : Int) : List Text → Bool → Nat → List Edit
  | [], _, _ => []
  | l :: rest, st, off =>
      let st' := toggleF st l
      (if st' then [] else adjustLineEdit shift l off) ++
        adjustEditsAux shift rest st' (off + l.length + 1)

/-- The full edit computation of `adjustHeaderLevels` (formatter.ts lines
182-256) including the early returns for "no heading" and "shift 0". -/
def adjustEditsOf (cur : Text) (target : Nat) : List Edit :=
  let lines := splitLines cur
  let mh := scanMin lines
  if mh.2 = false then []
  else if (target : Int) - (mh.1 : Int) = 0 then []
  else adjustEditsAux ((target : Int) - (mh.1 : Int)) lines false 0

/-- `adjustHeaderLevels` (formatter.ts lines 182-256): compute the edits and
apply them in reverse order through `update`, threading the tracked offset. -/
def adjustHeaderLevels (cur : Text) (target : Nat) (T : Int) : Text × Int :=
  (adjustEditsOf cur target).reverse.foldl applyEdit (cur, T)

/-- The counter-vector step of `addHeaderNumbering` (formatter.ts lines
321-326): extend with 1s when the relative level exceeds the vector length,
otherwise truncate to the level and increment the last slot. -/
def incLast : List Nat → List Nat
  | [] => []
  | [n] => [n + 1]
  | n :: m :: rest => n :: incLast (m :: rest)

def counterStep (cs : List Nat) (level : Nat) : List Nat :=
  if cs.length < level then cs ++ List.replicate (level - cs.length) 1
  else incLast (cs.take level)

/-- `counters.join(".")` from formatter.ts line 328. -/
def joinDots (cs : List Nat) : Text :=
  List.intercalate ['.'] (cs.map (fun n => (Nat.repr n).toList))

/-- The rendered numbering token (formatter.ts lines 328-334): dot-joined
counters, plus a trailing dot exactly at relative level 1. -/
def renderPfx (cs : List Nat) (level : Nat) : Text :=
  joinDots cs ++ (if level = 1 then ['.'] else [])

/-- Match of `/^([\d\.]+)(?:\s+(.*))?$/` (formatter.ts line 337) against the
heading text: a nonempty greedy run of digits and dots that is either the whole
text or is followed by whitespace; returns the dotted-number token. -/
def numTokenMatch (tx : Text) : Option Text :=
  let tok := tx.takeWhile (fun c => c.isDigit || c = '.')
  let rest := tx.drop tok.length
  if tok = [] then none
  else
    match rest with
    | [] => some tok
    | c :: _ => if isWS c then some tok else none

/-- The edit of `addHeaderNumbering` on one non-fenced heading line
(formatter.ts lines 328-365): replace an existing dotted-number token when it
differs from the computed one, otherwise insert the computed token plus one
space before the heading text. -/
def numberLineEdit (ml : Nat) (l : Text) (off : Nat) (cs : List Nat) : List Edit :=
  match headerMatchFull l with
  | some (ind, hs, sp, tx) =>
      let level := hs.length + 1 - ml
      let pfx := renderPfx (counterStep cs level) level
      let textStart := off + ind.length + hs.length + sp.length
      (match numTokenMatch tx with
       | some tok =>
           if tok ≠ pfx then [⟨textStart, textStart + tok.length, pfx⟩]
           else []
       | none => [⟨textStart, textStart, pfx ++ [' ']⟩])
  | none => []

/-- The counter-vector update of one non-fenced line (formatter.ts lines
304-326): a heading line advances the counters, any other line leaves them. -/
def numberLineCs (ml : Nat) (l : Text) (cs : List Nat) : List Nat :=
  match headerMatchFull l with
  | some (_, hs, _, _) => counterStep cs (hs.length + 1 - ml)
  | none => cs

/-- The edit list produced by the numbering loop of `addHeaderNumbering`
(formatter.ts lines 288-369), in forward document order, threading the counter
vector.  `ml` is the pre-computed minimum heading level; lines inside a fenced
block are skipped entirely (no edit, no counter update). -/
def numberEditsAux (ml : Nat) : List Text → Bool → Nat → List Nat → List Edit
  | [], _, _, _ => []
  | l :: rest, st, off, cs =>
      let st' := toggleF st l
      if st' then numberEditsAux ml rest st' (off + l.length + 1) cs
      else
        numberLineEdit ml l off cs ++
          numberEditsAux ml rest st' (off + l.length + 1) (numberLineCs ml l cs)

/-- The full edit computation of `addHeaderNumbering` (formatter.ts lines
258-376) including the early return when no heading was found (minLevel
still 100). -/
def numberEditsOf (cur : Text) : List Edit :=
  let lines := splitLines cur
  let ml := (scanMin lines).1
  if ml = 100 then []
  else numberEditsAux ml lines false 0 []

/-- `addHeaderNumbering` (formatter.ts lines 258-376): compute the numbering
edits and apply them in reverse order through `update`. -/
def addHeaderNumbering (cur : Text) (T : Int) : Text × Int :=
  (numberEditsOf cur).reverse.foldl applyEdit (cur, T)

/-- The sequence of rendered numbering tokens obtained by running the counter
update of `addHeaderNumbering` (formatter.ts lines 321-334) over a list of
relative heading depths. -/
def tokensOfDepths (ds : List Nat) : List Text :=
  (ds.foldl
     (fun (acc : List Nat × List Text) d =>
        let cs := counterStep acc.1 d
        (cs, acc.2 ++ [renderPfx cs d]))
     ([], [])).2

/-- Match of `REGEXP_UNORDERED_LIST_ITEMS_WITH_EXTRA_SPACES`
(formatter.ts line 23): `^[^\S\r\n]*[-*+][^\S\r\n]([^\S\r\n]+)` — an unordered
list marker followed by at least two line-whitespace characters; returns the
span of the captured extra-whitespace run, in line-local coordinates. -/
def extraSpacesMatch (l : Text) : Option (Nat × Nat) :=
  let ind := l.takeWhile isLineWS
  match l.drop ind.length with
  | m :: w :: rest =>
      if (m = '-' || m = '*' || m = '+') && isLineWS w then
        let extra := rest.takeWhile isLineWS
        if extra ≠ [] then some (ind.length + 2, ind.length + 2 + extra.length)
        else none
      else none
  | _ => none

/-- Match of `REGEXP_EMPTY_LIST_ITEMS_WITHOUT_TRAILING_SPACES` (formatter.ts
lines 24-25): a whole line that is an unordered marker (optionally followed by
a one-character checkbox) or an ordered marker `N.`, with nothing after it. -/
def emptyItemMatch (l : Text) : Bool :=
  let ind := l.takeWhile isLineWS
  let r := l.drop ind.length
  (match r with
   | m :: rest =>
       (m = '-' || m = '*' || m = '+') &&
       (rest = [] ||
        (let sp := rest.takeWhile isLineWS
         sp ≠ [] &&
         (match rest.drop sp.length with
          | ['[', c, ']'] => !(c = '\n') && !(c = '\r')
          | _ => false)))
   | [] => false) ||
  (let ds := r.takeWhile Char.isDigit
   ds ≠ [] && r.drop ds.length = ['.'])

/-- The matches of the extra-spaces pattern over the whole buffer, one attempt
per line (spec section 4.1: the matcher yields all matches in document order),
as absolute capture spans. -/
def extraSpaceSpansAux : List Text → Nat → List (Nat × Nat)
  | [], _ => []
  | l :: rest, off =>
      (match extraSpacesMatch l with
       | some (s, e) => [(off + s, off + e)]
       | none => []) ++ extraSpaceSpansAux rest (off + l.length + 1)

/-- `removeExtraSpaces` (formatter.ts lines 160-169): delete each captured
extra-whitespace run, iterating the matches in reverse order and threading the
tracked offset through `MagicString.delete`. -/
def removeExtraSpacesPass (cur : Text) (T : Int) : Text × Int :=
  (extraSpaceSpansAux (splitLines cur) 0).reverse.foldl
    (fun acc se => (spliceText acc.1 se.1 se.2 [], remapDelete se.1 se.2 acc.2))
    (cur, T)

/-- The insertion points of the empty-item pattern over the whole buffer: the
end offset of each fully-matching line. -/
def trailingInsertsAux : List Text → Nat → List Nat
  | [], _ => []
  | l :: rest, off =>
      (if emptyItemMatch l then [off + l.length] else []) ++
      trailingInsertsAux rest (off + l.length + 1)

/-- `addTrailingSpaces` (formatter.ts lines 171-180): insert one space at the
end of each matched empty list item, iterating matches in reverse order and
threading the tracked offset through `MagicString.insert`. -/
def addTrailingSpacesPass (cur : Text) (T : Int) : Text × Int :=
  (trailingInsertsAux (splitLines cur) 0).reverse.foldl
    (fun acc k => (spliceText acc.1 k k [' '], remapInsert k 1 acc.2))
    (cur, T)

/-- The plugin settings consulted by the pass pipeline of `formatFile` /
`formatContent` (formatter.ts lines 62-74 and 107-119; fields from model.ts). -/
structure FmtSettings where
  removeExtraSpaces : Bool
  addTrailingSpaces : Bool
  headerStartLevel : Nat
  autoNumbering : Bool

/-- The conditional pass pipeline of formatter.ts (lines 62-74 / 107-119): the
list-marker cleanups, then the heading-level shift only when
`headerStartLevel > 1`, then the heading renumbering when `autoNumbering`. -/
def formatPasses (s : FmtSettings) (cur : Text) (T : Int) : Text × Int :=
  let r1 := if s.removeExtraSpaces then removeExtraSpacesPass cur T else (cur, T)
  let r2 := if s.addTrailingSpaces then addTrailingSpacesPass r1.1 r1.2 else r1
  let r3 := if s.headerStartLevel > 1 then adjustHeaderLevels r2.1 s.headerStartLevel r2.2 else r2
  if s.autoNumbering then addHeaderNumbering r3.1 r3.2 else r3

/-- `if (offset !== -1) editor.setCursor(...)` (formatter.ts line 126): the
cursor is set only when the final tracked offset differs from -1. -/
def shouldSetCursor (off : Int) : Bool := off ≠ -1

/-- Whether `content.original` / `content.current` ends with a newline
(formatter.ts lines 141-142). -/
def endsWithNL (t : Text) : Bool := t.getLast? = some '\n'

/-- The mutation-engine calls issued by the trailing-newline reconciliation of
`formatSelection` (formatter.ts lines 141-147): either `append("\n")`, or
`delete(-1)` — a delete whose start argument is the literal -1. -/
inductive TrailCall where
  | appendNL : TrailCall
  | deleteAt : Int → TrailCall
deriving DecidableEq

def newlineReconcile (original current : Text) : List TrailCall :=
  if endsWithNL original && !endsWithNL current then [TrailCall.appendNL]
  else if !endsWithNL original && endsWithNL current then [TrailCall.deleteAt (-1)]
  else []

/-- Modelled from the spec: `MagicString.delete` (src/utils/string.ts is not
among the provided sources).  Spec section 7 requires out-of-range spans
(start past end, end past the buffer length) to fail fast rather than clamp;
the `delete(-1)` call site of `formatSelection` together with spec section 4.3
("a deletion of the trailing character") requires a negative start to be
interpreted relative to the buffer end, deleting through the end of the
buffer. -/
def msDelete (cur : Text) (s : Int) (T : Int) : Option (Text × Int) :=
  let s' : Int := if s < 0 then (cur.length : Int) + s else s
  if 0 ≤ s' ∧ s' ≤ (cur.length : Int) then
    some (spliceText cur s'.toNat cur.length [],
          remapDelete s'.toNat cur.length T)
  else none

/-- Modelled from the spec: `MagicString.insert` fails fast when the insertion
point is negative or past the buffer length (spec section 7). -/
def msInsert (cur : Text) (k : Int) (txt : Text) (T : Int) : Option (Text × Int) :=
  if 0 ≤ k ∧ k ≤ (cur.length : Int) then
    some (spliceText cur k.toNat k.toNat txt, remapInsert k.toNat txt.length T)
  else none

/-- Modelled from the spec: `MagicString.update` fails fast on an out-of-range
span (negative start, start past end, or end past the buffer length). -/
def msUpdate (cur : Text) (s e : Int) (txt : Text) (T : Int) : Option (Text × Int) :=
  if 0 ≤ s ∧ s ≤ e ∧ e ≤ (cur.length : Int) then
    some (spliceText cur s.toNat e.toNat txt,
          remapUpdate s.toNat e.toNat txt.length T)
  else none

/-- The `tencentCos` settings block (model.ts). -/
structure CosSettings where
  secretId : Text
  secretKey : Text
  bucket : Text
  region : Text
  domain : Text
deriving DecidableEq

/-- One image candidate found in the buffer (image-uploader.ts, `ImageMatch`):
the literal URL text and its spans. -/
structure ImageMatch where
  url : Text
  start : Nat
  stop : Nat
  urlStart : Nat
  urlEnd : Nat
deriving DecidableEq

/-- `url.startsWith("http")` — the scheme test of image-uploader.ts line 172. -/
def isHttpUrl (url : Text) : Bool := "http".toList.isPrefixOf url

/-- The canonical storage domain `bucket.cos.region.myqcloud.com`
(image-uploader.ts line 182). -/
def standardDomain (cfg : CosSettings) : Text :=
  cfg.bucket ++ ".cos.".toList ++ cfg.region ++ ".myqcloud.com".toList

/-- `url.includes(domain)` — JS substring containment. -/
def containsSub (needle : Text) : Text → Bool
  | [] => needle.isPrefixOf []
  | c :: rest => needle.isPrefixOf (c :: rest) || containsSub needle rest

/-- `shouldUpload` (image-uploader.ts lines 167-192): skip URLs already marked
failed; for http URLs, skip those containing the non-empty custom domain or the
canonical standard domain (when bucket and region are configured); everything
else — including any non-http local path — is uploaded. -/
def shouldUpload (failed : List Text) (cfg : CosSettings) (url : Text) : Bool :=
  if failed.contains url then false
  else if isHttpUrl url then
    if cfg.domain ≠ [] ∧ containsSub cfg.domain url then false
    else if cfg.bucket ≠ [] ∧ cfg.region ≠ [] ∧ containsSub (standardDomain cfg) url then false
    else true
  else true

/-- The externally-determined outcome of one upload attempt, abstracting the
network and vault effects of `uploadImage` (image-uploader.ts lines 194-268):
the local link path did not resolve, an exception was thrown, or the storage
PUT completed with some HTTP status code. -/
inductive UploadEnv where
  | resolveFail : UploadEnv
  | netFail : UploadEnv
  | putStatus : Nat → UploadEnv
deriving DecidableEq

/-- `domain.replace(/\/$/, "")` (image-uploader.ts line 251): drop one trailing
slash. -/
def cleanDomain (d : Text) : Text :=
  if d.getLast? = some '/' then d.dropLast else d

/-- The replacement URL returned on a successful upload (image-uploader.ts
lines 249-255): the custom domain plus the object key when a domain is
configured, otherwise the canonical upload URL. -/
def resultUrl (cfg : CosSettings) (key : Text) : Text :=
  if cfg.domain ≠ [] then cleanDomain cfg.domain ++ '/' :: key
  else "https://".toList ++ standardDomain cfg ++ '/' :: key

/-- `uploadImage` (image-uploader.ts lines 194-268) as a function of the
abstract outcome: an unresolved local path returns null without touching the
failed-URL set (lines 215-218); a thrown exception records the URL as failed
and returns null (lines 263-267); a completed PUT returns the replacement URL
on a 2xx status and otherwise records the URL as failed and returns null
(lines 249-262); missing bucket/region returns null without recording
(lines 224-226).  The returned pair is (replacement, updated failed set). -/
def uploadImage (cfg : CosSettings) (failed : List Text) (url : Text)
    (env : UploadEnv) (key : Text) : Option Text × List Text :=
  match env with
  | .resolveFail => (none, failed)
  | .netFail => (none, failed ++ [url])
  | .putStatus c =>
      if cfg.bucket = [] ∨ cfg.region = [] then (none, failed)
      else if 200 ≤ c ∧ c < 300 then (some (resultUrl cfg key), failed)
      else (none, failed ++ [url])

/-- One candidate of the upload loop: the match plus its abstract outcome and
generated object key. -/
structure Candidate where
  m : ImageMatch
  env : UploadEnv
  key : Text
deriving DecidableEq

/-- The upload loop of `uploadImages` (image-uploader.ts lines 45-65): every
candidate is tested with `shouldUpload` against the failed set as it was when
the loop started (the additions performed by the in-flight uploads happen after
all checks); accepted candidates produce a (match, replacement) result and
thread the failed set. -/
def runUploadsAux (cfg : CosSettings) (failed0 : List Text) :
    List Candidate → List Text → List (ImageMatch × Option Text) × List Text
  | [], failed => ([], failed)
  | c :: rest, failed =>
      if shouldUpload failed0 cfg c.m.url then
        ((c.m, (uploadImage cfg failed c.m.url c.env c.key).1) ::
           (runUploadsAux cfg failed0 rest
             (uploadImage cfg failed c.m.url c.env c.key).2).1,
         (runUploadsAux cfg failed0 rest
           (uploadImage cfg failed c.m.url c.env c.key).2).2)
      else runUploadsAux cfg failed0 rest failed

def runUploads (cfg : CosSettings) (failed0 : List Text) (cands : List Candidate) :
    List (ImageMatch × Option Text) × List Text :=
  runUploadsAux cfg failed0 cands failed0

/-- `results.sort((a, b) => b.match.start - a.match.start)` (image-uploader.ts
line 68): order the results by descending match start before applying them. -/
def insertByStart (p : ImageMatch × Option Text) :
    List (ImageMatch × Option Text) → List (ImageMatch × Option Text)
  | [] => [p]
  | q :: rest =>
      if q.1.start ≤ p.1.start then p :: q :: rest else q :: insertByStart p rest

def sortResults : List (ImageMatch × Option Text) → List (ImageMatch × Option Text)
  | [] => []
  | p :: rest => insertByStart p (sortResults rest)

/-- The replacement loop of `uploadImages` (image-uploader.ts lines 70-74):
each result carrying a replacement URL is applied through `update` at the
candidate's URL span, threading the tracked offset; null results apply
nothing. -/
def applyUploadResults (results : List (ImageMatch × Option Text))
    (cur : Text) (T : Int) : Text × Int :=
  (sortResults results).foldl
    (fun acc p =>
      match p.2 with
      | some u => (spliceText acc.1 p.1.urlStart p.1.urlEnd u,
                   remapUpdate p.1.urlStart p.1.urlEnd u.length acc.2)
      | none => acc)
    (cur, T)

/-- `uploadImages` (image-uploader.ts lines 26-85): the early returns for a
missing/incomplete configuration, missing credentials (`initCos`), and an
empty candidate list all pass the tracked offset through unchanged; otherwise
the uploads run and the replacements are applied.  Returns ((text, offset),
failed set). -/
def uploadImagesPass (cfg? : Option CosSettings) (failed0 : List Text)
    (cands : List Candidate) (cur : Text) (T : Int) : (Text × Int) × List Text :=
  match cfg? with
  | none => ((cur, T), failed0)
  | some cfg =>
      if cfg.bucket = [] ∨ cfg.region = [] then ((cur, T), failed0)
      else if cfg.secretId = [] ∨ cfg.secretKey = [] then ((cur, T), failed0)
      else if cands = [] then ((cur, T), failed0)
      else
        let r := runUploads cfg failed0 cands
        (applyUploadResults r.1 cur T, r.2)

/-! Helper lemmas. -/

theorem incLast_cons_of_ne_nil (a : Nat) (l : List Nat) (h : l ≠ []) :
    incLast (a :: l) = a :: incLast l := by
  cases l with
  | nil => exact absurd rfl h
  | cons b t => rfl

theorem incLast_append (pre : List Nat) (last : Nat) :
    incLast (pre ++ [last]) = pre ++ [last + 1] := by
  induction pre with
  | nil => rfl
  | cons a t ih =>
      rw [List.cons_append, incLast_cons_of_ne_nil a (t ++ [last]) (by simp), ih,
        List.cons_append]

/-- C2: for every buffer, the tracked-offset remap rule of the mutation
engine's insert and delete operations is: for an insertion at offset k with
tracked offset T, the result is T when T < k and T + len when T >= k; for a
deletion of span [s,e) the result is T when T < s, T - (e - s) when T >= e,
and s when s <= T < e.  (MagicString is modelled from the spec; these remap
functions are the ones threaded through every pass of formatter.ts.) -/
theorem c2_remap_rule :
    (∀ (k len : Nat) (T : Int),
       (T < (k : Int) → remapInsert k len T = T) ∧
       ((k : Int) ≤ T → remapInsert k len T = T + (len : Int))) ∧
    (∀ (s e : Nat) (T : Int), s ≤ e →
       (T < (s : Int) → remapDelete s e T = T) ∧
       ((e : Int) ≤ T → remapDelete s e T = T - ((e : Int) - (s : Int))) ∧
       ((s : Int) ≤ T ∧ T < (e : Int) → remapDelete s e T = (s : Int))) := by
  constructor
  · intro k len T
    constructor <;> intro h <;> unfold remapInsert <;> split_ifs <;> omega
  · intro s e T hse
    refine ⟨?_, ?_, ?_⟩ <;> intro h <;> unfold remapDelete <;> split_ifs <;> omega

theorem c2_remap_rule_witness :
    ((2 : Int) ≤ 5 ∧ remapInsert 2 3 5 = 5 + (3 : Int)) ∧
    ((1 : Nat) ≤ 3 ∧ (1 : Int) ≤ 2 ∧ (2 : Int) < 3 ∧ remapDelete 1 3 2 = (1 : Int)) :=
  ⟨⟨by decide, (c2_remap_rule.1 2 3 5).2 (by decide)⟩,
   ⟨by decide, by decide, by decide,
    (c2_remap_rule.2 1 3 2 (by decide)).2.2 ⟨by decide, by decide⟩⟩⟩

/-- C7: when the heading-level shift pass finds no heading, or computes
shift == 0 (target start level equals the document's minimum heading level),
it is a no-op: the text and the tracked offset are returned unchanged. -/
theorem c7_adjust_noop (cur : Text) (target : Nat) (T : Int)
    (h : (scanMin (splitLines cur)).2 = false ∨
         (target : Int) - ((scanMin (splitLines cur)).1 : Int) = 0) :
    adjustHeaderLevels cur target T = (cur, T) := by
  unfold adjustHeaderLevels adjustEditsOf
  rcases h with h | h <;> simp [h]

theorem c7_adjust_noop_witness :
    ((scanMin (splitLines "body text".toList)).2 = false ∨
     (4 : Int) - ((scanMin (splitLines "body text".toList)).1 : Int) = 0) ∧
    adjustHeaderLevels "body text".toList 4 11 = ("body text".toList, 11) :=
  ⟨Or.inl (by decide), c7_adjust_noop "body text".toList 4 11 (Or.inl (by decide))⟩

/-- C10: the heading-level shift pass is invoked only when headerStartLevel
exceeds 1; with headerStartLevel == 1 (and the other passes disabled) the
pipeline leaves a document whose minimum heading level exceeds 1 completely
unchanged, even though the pass's own shift formula (target - minLevel) is
nonzero there. -/
theorem c10_gating (s : FmtSettings) (cur : Text) (T : Int)
    (h1 : s.headerStartLevel = 1)
    (h2 : s.removeExtraSpaces = false) (h3 : s.addTrailingSpaces = false)
    (h4 : s.autoNumbering = false)
    (h5 : 1 < (scanMin (splitLines cur)).1) :
    formatPasses s cur T = (cur, T) ∧
    (1 : Int) - ((scanMin (splitLines cur)).1 : Int) ≠ 0 := by
  constructor
  · unfold formatPasses
    simp [h1, h2, h3, h4]
  · omega

theorem c10_gating_witness :
    ((⟨false, false, 1, false⟩ : FmtSettings).headerStartLevel = 1 ∧
     1 < (scanMin (splitLines "## a".toList)).1) ∧
    formatPasses ⟨false, false, 1, false⟩ "## a".toList 0 = ("## a".toList, 0) :=
  ⟨⟨rfl, by decide⟩,
   (c10_gating ⟨false, false, 1, false⟩ "## a".toList 0 rfl rfl rfl rfl (by decide)).1⟩

/-- C1: the heading renumbering maintains a counter vector indexed by relative
depth: at relative depth d, a vector shorter than d is extended with 1s up to
length d, otherwise it is truncated to length d with its last slot
incremented; the rendered token is the dot-joined counters with a trailing dot
exactly when d = 1; and relative depths [1,2,2,1,2,3] yield the tokens
["1.", "1.1", "1.2", "2.", "2.1", "2.1.1"], as the full numbering pass
confirms on a six-heading document. -/
theorem c1_counter_vector :
    (∀ (cs : List Nat) (d : Nat), 1 ≤ d →
       (cs.length < d → counterStep cs d = cs ++ List.replicate (d - cs.length) 1) ∧
       (d ≤ cs.length → ∀ pre last, cs.take d = pre ++ [last] →
          counterStep cs d = pre ++ [last + 1]) ∧
       renderPfx (counterStep cs d) d =
         joinDots (counterStep cs d) ++ (if d = 1 then ['.'] else [])) ∧
    tokensOfDepths [1, 2, 2, 1, 2, 3] =
      ["1.", "1.1", "1.2", "2.", "2.1", "2.1.1"].map String.toList ∧
    addHeaderNumbering "# a\n## b\n## c\n# d\n## e\n### f".toList (-1) =
      ("# 1. a\n## 1.1 b\n## 1.2 c\n# 2. d\n## 2.1 e\n### 2.1.1 f".toList, -1) := by
  refine ⟨?_, by decide, by decide⟩
  intro cs d hd
  refine ⟨?_, ?_, rfl⟩
  · intro hlt
    unfold counterStep
    simp [hlt]
  · intro hle pre last htake
    unfold counterStep
    rw [if_neg (by omega), htake, incLast_append]

theorem c1_counter_vector_witness :
    (1 ≤ 2 ∧ (2 : Nat) ≤ ([1, 1] : List Nat).length ∧
     counterStep [1, 1] 2 = [1] ++ [1 + 1]) ∧
    (1 ≤ 3 ∧ ([1, 2] : List Nat).length < 3 ∧
     counterStep [1, 2] 3 = [1, 2] ++ List.replicate (3 - ([1, 2] : List Nat).length) 1) :=
  ⟨⟨by decide, by decide,
    (c1_counter_vector.1 [1, 1] 2 (by decide)).2.1 (by decide) [1] 1 (by decide)⟩,
   ⟨by decide, by decide,
    (c1_counter_vector.1 [1, 2] 3 (by decide)).1 (by decide)⟩⟩

theorem uploadImage_failed_shift (cfg : CosSettings) (facc : List Text)
    (url : Text) (env : UploadEnv) (key : Text) :
    uploadImage cfg facc url env key =
      ((uploadImage cfg [] url env key).1,
       facc ++ (uploadImage cfg [] url env key).2) := by
  cases env with
  | resolveFail => simp [uploadImage]
  | netFail => simp [uploadImage]
  | putStatus c =>
      unfold uploadImage
      by_cases h1 : cfg.bucket = [] ∨ cfg.region = []
      · simp [h1]
      · by_cases h2 : 200 ≤ c ∧ c < 300 <;> simp [h1, h2]

theorem runUploadsAux_characterization (cfg : CosSettings) (f0 : List Text) :
    ∀ (cands : List Candidate) (facc : List Text),
      runUploadsAux cfg f0 cands facc =
        ((cands.filter fun c => shouldUpload f0 cfg c.m.url).map
           (fun c => (c.m, (uploadImage cfg [] c.m.url c.env c.key).1)),
         facc ++ ((cands.filter fun c => shouldUpload f0 cfg c.m.url).map
           (fun c => (uploadImage cfg [] c.m.url c.env c.key).2)).flatten) := by
  intro cands
  induction cands with
  | nil => intro facc; simp [runUploadsAux]
  | cons c rest ih =>
      intro facc
      unfold runUploadsAux
      by_cases h : shouldUpload f0 cfg c.m.url
      · rw [if_pos h, uploadImage_failed_shift, ih]
        simp [h, List.filter_cons, List.append_assoc]
      · rw [if_neg h, ih]
        simp [h, List.filter_cons]

/-- C4 counterexample: a candidate URL that does not start with "http" but
does contain the configured non-empty custom domain is uploaded anyway —
`shouldUpload` returns true for it, contradicting the claim that containing
the custom domain alone forces false. -/
theorem c4_counterexample :
    (CosSettings.domain
       ⟨"i".toList, "k".toList, "b".toList, "r".toList, "example.com".toList⟩ ≠ []) ∧
    containsSub "example.com".toList "./example.com/a.png".toList = true ∧
    shouldUpload []
      ⟨"i".toList, "k".toList, "b".toList, "r".toList, "example.com".toList⟩
      "./example.com/a.png".toList = true := by decide

/-- C4 (amended): for a candidate URL that starts with "http", containing the
non-empty custom domain or the canonical standard domain
`bucket.cos.region.myqcloud.com` (with bucket and region configured) makes
`shouldUpload` return false, as does a previously-failed URL of any shape; and
the upload loop produces a result entry (hence a replacement edit) only for
candidates on which `shouldUpload` returned true. -/
theorem c4_skip_rules (failed : List Text) (cfg : CosSettings) (url : Text)
    (h : failed.contains url = true ∨
         (isHttpUrl url = true ∧ cfg.domain ≠ [] ∧
          containsSub cfg.domain url = true) ∨
         (isHttpUrl url = true ∧ cfg.bucket ≠ [] ∧ cfg.region ≠ [] ∧
          containsSub (standardDomain cfg) url = true)) :
    shouldUpload failed cfg url = false ∧
    ∀ (cands : List Candidate) (p : ImageMatch × Option Text),
      p ∈ (runUploads cfg failed cands).1 →
      ∃ c ∈ cands, shouldUpload failed cfg c.m.url = true ∧ p.1 = c.m := by
  constructor
  · unfold shouldUpload
    split_ifs with hf hh hd hs <;>
      first
        | rfl
        | (exfalso
           rcases h with h | ⟨h1, h2, h3⟩ | ⟨h1, h2, h3, h4⟩ <;> simp_all)
  · intro cands p hp
    rw [runUploads, runUploadsAux_characterization] at hp
    simp only [List.mem_map, List.mem_filter] at hp
    obtain ⟨c, ⟨hc, hsu⟩, hpc⟩ := hp
    exact ⟨c, hc, hsu, by rw [← hpc]⟩

theorem c4_skip_rules_witness :
    (isHttpUrl "http://img.example.com/a.png".toList = true ∧
     CosSettings.domain
       ⟨"i".toList, "k".toList, "b".toList, "r".toList, "example.com".toList⟩ ≠ [] ∧
     containsSub "example.com".toList "http://img.example.com/a.png".toList = true) ∧
    shouldUpload []
      ⟨"i".toList, "k".toList, "b".toList, "r".toList, "example.com".toList⟩
      "http://img.example.com/a.png".toList = false :=
  ⟨⟨by decide, by decide, by decide⟩,
   (c4_skip_rules []
      ⟨"i".toList, "k".toList, "b".toList, "r".toList, "example.com".toList⟩
      "http://img.example.com/a.png".toList
      (Or.inr (Or.inl ⟨by decide, by decide, by decide⟩))).1⟩

theorem mem_insertByStart (p q : ImageMatch × Option Text) :
    ∀ l, q ∈ insertByStart p l ↔ q = p ∨ q ∈ l := by
  intro l
  induction l with
  | nil => simp [insertByStart]
  | cons a t ih =>
      unfold insertByStart
      split_ifs
      · simp
      · simp only [List.mem_cons, ih]
        tauto

theorem mem_sortResults (q : ImageMatch × Option Text) :
    ∀ l, q ∈ sortResults l ↔ q ∈ l := by
  intro l
  induction l with
  | nil => simp [sortResults]
  | cons a t ih => simp [sortResults, mem_insertByStart, ih]

theorem applyUploadResults_all_none (results : List (ImageMatch × Option Text))
    (cur : Text) (T : Int) (h : ∀ p ∈ results, p.2 = none) :
    applyUploadResults results cur T = (cur, T) := by
  unfold applyUploadResults
  have h' : ∀ p ∈ sortResults results, p.2 = none := by
    intro p hp
    exact h p ((mem_sortResults p results).1 hp)
  generalize sortResults results = L at h'
  induction L with
  | nil => rfl
  | cons a t ih =>
      have ha := h' a (by simp)
      simp only [List.foldl_cons, ha]
      exact ih (fun p hp => h' p (by simp [hp]))

/-- C8 counterexample: an unresolved local path is a failed candidate whose
URL is NOT added to the session failed-URL set — the upload loop leaves the
set empty, contradicting the claim that every failure records the URL. -/
theorem c8_counterexample :
    (runUploads ⟨"i".toList, "k".toList, "b".toList, "r".toList, []⟩ []
       [⟨⟨"local/i.png".toList, 0, 21, 2, 13⟩, UploadEnv.resolveFail, "k".toList⟩]).1 =
      [(⟨"local/i.png".toList, 0, 21, 2, 13⟩, none)] ∧
    (runUploads ⟨"i".toList, "k".toList, "b".toList, "r".toList, []⟩ []
       [⟨⟨"local/i.png".toList, 0, 21, 2, 13⟩, UploadEnv.resolveFail, "k".toList⟩]).2 = [] ∧
    ¬ ("local/i.png".toList ∈
        (runUploads ⟨"i".toList, "k".toList, "b".toList, "r".toList, []⟩ []
          [⟨⟨"local/i.png".toList, 0, 21, 2, 13⟩, UploadEnv.resolveFail, "k".toList⟩]).2) := by
  decide

/-- C8 (amended): each candidate's result depends only on its own outcome —
the upload loop equals a per-candidate map over the accepted candidates, with
the failed-URL set extended exactly by the URLs of attempts that threw or got
a non-2xx status; a thrown exception or non-2xx PUT records the URL as failed
and yields no replacement, an unresolved local path yields no replacement
WITHOUT recording the URL, and results that carry no replacement apply no
edit. -/
theorem c8_failure_isolation (cfg : CosSettings) (f0 : List Text)
    (cands : List Candidate) :
    runUploads cfg f0 cands =
      ((cands.filter fun c => shouldUpload f0 cfg c.m.url).map
         (fun c => (c.m, (uploadImage cfg [] c.m.url c.env c.key).1)),
       f0 ++ ((cands.filter fun c => shouldUpload f0 cfg c.m.url).map
         (fun c => (uploadImage cfg [] c.m.url c.env c.key).2)).flatten) ∧
    (∀ (f : List Text) (url key : Text),
       uploadImage cfg f url UploadEnv.netFail key = (none, f ++ [url])) ∧
    (∀ (f : List Text) (url key : Text) (c : Nat),
       ¬(cfg.bucket = [] ∨ cfg.region = []) → ¬(200 ≤ c ∧ c < 300) →
       uploadImage cfg f url (UploadEnv.putStatus c) key = (none, f ++ [url])) ∧
    (∀ (f : List Text) (url key : Text),
       uploadImage cfg f url UploadEnv.resolveFail key = (none, f)) ∧
    (∀ (results : List (ImageMatch × Option Text)) (cur : Text) (T : Int),
       (∀ p ∈ results, p.2 = none) → applyUploadResults results cur T = (cur, T)) := by
  refine ⟨runUploadsAux_characterization cfg f0 cands f0, fun f url key => rfl,
    ?_, fun f url key => rfl, applyUploadResults_all_none⟩
  intro f url key c h1 h2
  simp [uploadImage, h1, h2]

theorem c8_failure_isolation_witness :
    (¬((⟨"i".toList, "k".toList, "b".toList, "r".toList, []⟩ : CosSettings).bucket = [] ∨
       (⟨"i".toList, "k".toList, "b".toList, "r".toList, []⟩ : CosSettings).region = []) ∧
     ¬(200 ≤ 500 ∧ 500 < 300)) ∧
    uploadImage ⟨"i".toList, "k".toList, "b".toList, "r".toList, []⟩ []
      "http://x/a.png".toList (UploadEnv.putStatus 500) "k".toList =
      (none, [] ++ ["http://x/a.png".toList]) :=
  ⟨⟨by decide, by decide⟩,
   (c8_failure_isolation ⟨"i".toList, "k".toList, "b".toList, "r".toList, []⟩ [] []).2.2.1
     [] "http://x/a.png".toList "k".toList 500 (by decide) (by decide)⟩

theorem takeWhile_all_true {p : Char → Bool} :
    ∀ (l : Text), (∀ c ∈ l, p c = true) → l.takeWhile p = l := by
  intro l
  induction l with
  | nil => intro _; rfl
  | cons a t ih =>
      intro h
      rw [List.takeWhile_cons, if_pos (h a (by simp))]
      rw [ih (fun c hc => h c (by simp [hc]))]

theorem takeWhile_middle {p : Char → Bool} (pre : Text) (x : Char) (post : Text)
    (hpre : ∀ c ∈ pre, p c = true) (hx : p x = false) :
    (pre ++ x :: post).takeWhile p = pre ∧
    (pre ++ x :: post).dropWhile p = x :: post := by
  induction pre with
  | nil => simp [List.takeWhile_cons, List.dropWhile_cons, hx]
  | cons a t ih =>
      have ha := hpre a (by simp)
      have iht := ih (fun c hc => hpre c (by simp [hc]))
      simp [List.takeWhile_cons, List.dropWhile_cons, ha, iht.1, iht.2]

theorem takeWhile_append_of_head {p : Char → Bool} (pre post : Text)
    (hpre : ∀ c ∈ pre, p c = true)
    (hpost : ∀ c, post.head? = some c → p c = false) :
    (pre ++ post).takeWhile p = pre := by
  cases post with
  | nil => rw [List.append_nil]; exact takeWhile_all_true pre hpre
  | cons x r => exact (takeWhile_middle pre x r hpre (hpost x rfl)).1

theorem drop_length_takeWhile {p : Char → Bool} :
    ∀ (l : Text), l.drop (l.takeWhile p).length = l.dropWhile p := by
  intro l
  induction l with
  | nil => rfl
  | cons a t ih =>
      rw [List.takeWhile_cons, List.dropWhile_cons]
      by_cases h : p a
      · simp [h, ih]
      · simp [h]

theorem digit_not_lineWS (c : Char) (h : c.isDigit = true) : isLineWS c = false := by
  have h1 : ('0' : Char) ≤ c := by
    simp [Char.isDigit] at h
    exact h.1
  have hne : c ≠ ' ' ∧ c ≠ '\t' ∧ c ≠ '\r' ∧ c ≠ '\n' := by
    refine ⟨?_, ?_, ?_, ?_⟩ <;> rintro rfl <;> exact absurd h1 (by decide)
  simp [isLineWS, Char.isWhitespace, hne.1, hne.2.1, hne.2.2.1, hne.2.2.2]

theorem marker_not_lineWS (m : Char) (hm : m = '-' ∨ m = '*' ∨ m = '+') :
    isLineWS m = false := by
  rcases hm with rfl | rfl | rfl <;> decide

theorem digit_not_marker (c : Char) (h : c.isDigit = true) :
    (c = '-' || c = '*' || c = '+') = false := by
  have h1 : c ≠ '-' := by rintro rfl; exact absurd h (by decide)
  have h2 : c ≠ '*' := by rintro rfl; exact absurd h (by decide)
  have h3 : c ≠ '+' := by rintro rfl; exact absurd h (by decide)
  simp [h1, h2, h3]

theorem extraSpacesMatch_pos (ind : Text) (m w : Char) (extra rest : Text)
    (hind : ∀ c ∈ ind, isLineWS c = true)
    (hm : m = '-' ∨ m = '*' ∨ m = '+')
    (hw : isLineWS w = true)
    (hex : extra ≠ []) (hexall : ∀ c ∈ extra, isLineWS c = true)
    (hrest : ∀ c, rest.head? = some c → isLineWS c = false) :
    extraSpacesMatch (ind ++ m :: w :: (extra ++ rest)) =
      some (ind.length + 2, ind.length + 2 + extra.length) := by
  have htw : (ind ++ m :: w :: (extra ++ rest)).takeWhile isLineWS = ind :=
    (takeWhile_middle ind m _ hind (marker_not_lineWS m hm)).1
  have hcond : (m = '-' || m = '*' || m = '+') = true := by
    rcases hm with rfl | rfl | rfl <;> simp
  have hex2 : (extra ++ rest).takeWhile isLineWS = extra :=
    takeWhile_append_of_head extra rest hexall hrest
  simp [extraSpacesMatch, htw, List.drop_left, hcond, hw, hex2, hex]

theorem extraSpacesMatch_none (l : Text)
    (h : ∀ c r, l.dropWhile isLineWS = c :: r →
         (c = '-' ∨ c = '*' ∨ c = '+') → False) :
    extraSpacesMatch l = none := by
  have hd := drop_length_takeWhile (p := isLineWS) l
  cases hdw : l.dropWhile isLineWS with
  | nil => simp [extraSpacesMatch, hd, hdw]
  | cons c r =>
      cases r with
      | nil => simp [extraSpacesMatch, hd, hdw]
      | cons w rest =>
          have hnm : ¬(c = '-' ∨ c = '*' ∨ c = '+') :=
            fun hmk => h c (w :: rest) hdw hmk
          simp [not_or] at hnm
          simp [extraSpacesMatch, hd, hdw, hnm.1, hnm.2.1, hnm.2.2]

theorem emptyItemMatch_ordered (ind ds : Text)
    (hind : ∀ c ∈ ind, isLineWS c = true) (hds : ds ≠ [])
    (hdig : ∀ c ∈ ds, c.isDigit = true) :
    emptyItemMatch (ind ++ (ds ++ ['.'])) = true := by
  cases ds with
  | nil => exact absurd rfl hds
  | cons d ds' =>
      have hd0 := hdig d (by simp)
      have htw : (ind ++ (d :: ds' ++ ['.'])).takeWhile isLineWS = ind := by
        rw [List.cons_append]
        exact (takeWhile_middle ind d _ hind (digit_not_lineWS d hd0)).1
      have htd : ((d :: ds') ++ ['.']).takeWhile Char.isDigit = d :: ds' :=
        (takeWhile_middle (d :: ds') '.' [] hdig (by decide)).1
      have hdd : ((d :: ds') ++ ['.']).drop (d :: ds').length = ['.'] :=
        List.drop_left (d :: ds') ['.']
      simp only [emptyItemMatch, htw, List.drop_left, htd, hdd]
      simp [digit_not_marker d hd0]

theorem emptyItemMatch_unordered (ind : Text) (m : Char)
    (hind : ∀ c ∈ ind, isLineWS c = true)
    (hm : m = '-' ∨ m = '*' ∨ m = '+') :
    emptyItemMatch (ind ++ [m]) = true := by
  have htw : (ind ++ [m]).takeWhile isLineWS = ind :=
    (takeWhile_middle ind m [] hind (marker_not_lineWS m hm)).1
  have hcond : (m = '-' || m = '*' || m = '+') = true := by
    rcases hm with rfl | rfl | rfl <;> simp
  simp [emptyItemMatch, htw, List.drop_left, hcond]

theorem removeExtraSpaces_single_pos (l : Text) (T : Int) (s e : Nat)
    (hsl : splitLines l = [l]) (hm : extraSpacesMatch l = some (s, e)) :
    removeExtraSpacesPass l T = (spliceText l s e [], remapDelete s e T) := by
  unfold removeExtraSpacesPass
  rw [hsl]
  simp [extraSpaceSpansAux, hm]

theorem removeExtraSpaces_single_none (l : Text) (T : Int)
    (hsl : splitLines l = [l]) (hm : extraSpacesMatch l = none) :
    removeExtraSpacesPass l T = (l, T) := by
  unfold removeExtraSpacesPass
  rw [hsl]
  simp [extraSpaceSpansAux, hm]

theorem addTrailingSpaces_single (l : Text) (T : Int)
    (hsl : splitLines l = [l]) (hm : emptyItemMatch l = true) :
    addTrailingSpacesPass l T = (l ++ [' '], remapInsert l.length 1 T) := by
  unfold addTrailingSpacesPass
  rw [hsl]
  simp [trailingInsertsAux, hm, spliceText, List.take_length, List.drop_length]

/-- C5 counterexample: an ordered list marker `N.` followed by more than one
space is NOT collapsed — the extra-spaces regex covers only `-`, `*`, `+`
(its name in formatter.ts says "UNORDERED"), so the cleanup pass leaves
"1.   x" unchanged while the claim demands "1. x". -/
theorem c5_counterexample :
    removeExtraSpacesPass "1.   x".toList (-1) = ("1.   x".toList, -1) ∧
    "1.   x".toList ≠ "1. x".toList := by decide

/-- C5 (amended): the extra-space collapse applies exactly to the unordered
markers `-`, `*`, `+` — such a marker followed by more than one
line-whitespace character has the surplus run captured and deleted, leaving
one space, while a line whose first non-whitespace character is not one of
`-`, `*`, `+` (in particular an ordered `N.` marker) is never collapsed; the
trailing-space insertion covers both an ordered marker `N.` and a bare
unordered marker with no content, appending exactly one space at the end of
the matched line. -/
theorem c5_marker_cleanup :
    (∀ (ind : Text) (m w : Char) (extra rest : Text),
       (∀ c ∈ ind, isLineWS c = true) → (m = '-' ∨ m = '*' ∨ m = '+') →
       isLineWS w = true → extra ≠ [] → (∀ c ∈ extra, isLineWS c = true) →
       (∀ c, rest.head? = some c → isLineWS c = false) →
       extraSpacesMatch (ind ++ m :: w :: (extra ++ rest)) =
         some (ind.length + 2, ind.length + 2 + extra.length)) ∧
    (∀ l, (∀ c r, l.dropWhile isLineWS = c :: r →
            (c = '-' ∨ c = '*' ∨ c = '+') → False) →
       extraSpacesMatch l = none) ∧
    (∀ (ind ds : Text), (∀ c ∈ ind, isLineWS c = true) → ds ≠ [] →
       (∀ c ∈ ds, c.isDigit = true) →
       emptyItemMatch (ind ++ (ds ++ ['.'])) = true) ∧
    (∀ (ind : Text) (m : Char), (∀ c ∈ ind, isLineWS c = true) →
       (m = '-' ∨ m = '*' ∨ m = '+') →
       emptyItemMatch (ind ++ [m]) = true) ∧
    (∀ (l : Text) (T : Int) (s e : Nat), splitLines l = [l] →
       extraSpacesMatch l = some (s, e) →
       removeExtraSpacesPass l T = (spliceText l s e [], remapDelete s e T)) ∧
    (∀ (l : Text) (T : Int), splitLines l = [l] → extraSpacesMatch l = none →
       removeExtraSpacesPass l T = (l, T)) ∧
    (∀ (l : Text) (T : Int), splitLines l = [l] → emptyItemMatch l = true →
       addTrailingSpacesPass l T = (l ++ [' '], remapInsert l.length 1 T)) ∧
    removeExtraSpacesPass "-   x\n1.   y".toList 0 = ("- x\n1.   y".toList, 0) ∧
    addTrailingSpacesPass "-\n1.\ntext".toList 0 = ("- \n1. \ntext".toList, 0) :=
  ⟨extraSpacesMatch_pos, extraSpacesMatch_none, emptyItemMatch_ordered,
   emptyItemMatch_unordered, removeExtraSpaces_single_pos,
   removeExtraSpaces_single_none, addTrailingSpaces_single,
   by decide, by decide⟩

theorem c5_marker_cleanup_witness :
    (splitLines "*   ab".toList = ["*   ab".toList] ∧
     extraSpacesMatch "*   ab".toList = some (2, 4)) ∧
    removeExtraSpacesPass "*   ab".toList 6 =
      (spliceText "*   ab".toList 2 4 [], remapDelete 2 4 6) :=
  ⟨⟨by decide, by decide⟩,
   c5_marker_cleanup.2.2.2.2.1 "*   ab".toList 6 2 4 (by decide) (by decide)⟩

/-- C6 counterexample: the trailing-newline reconciliation of
`formatSelection` (formatter.ts lines 141-147) calls `delete` with the
negative start index -1 whenever the original selection lacked a trailing
newline but the formatted text has one — a call site that relies on a
negative start being accepted, contradicting the claim. -/
theorem c6_counterexample :
    newlineReconcile "a".toList "a\n".toList = [TrailCall.deleteAt (-1)] ∧
    (-1 : Int) < 0 := by decide

/-- C6 (amended): the modelled edit primitives fail fast (return no result)
when a span is out of range — update on a negative start, inverted span, or
end past the buffer length; insert on a point outside [0, length]; delete on
a start past the length or below -length — but delete accepts a NEGATIVE
start as an index counted from the buffer end (deleting through the end of
the buffer), and `formatSelection` relies on exactly that by issuing
`delete(-1)` to drop the trailing character whenever the original selection
lacked a trailing newline and the formatted text has one. -/
theorem c6_span_errors :
    (∀ (cur : Text) (s e : Int) (txt : Text) (T : Int),
       (s < 0 ∨ e < s ∨ (cur.length : Int) < e) → msUpdate cur s e txt T = none) ∧
    (∀ (cur : Text) (k : Int) (txt : Text) (T : Int),
       (k < 0 ∨ (cur.length : Int) < k) → msInsert cur k txt T = none) ∧
    (∀ (cur : Text) (s : Int) (T : Int),
       ((cur.length : Int) < s ∨ s < -(cur.length : Int)) → msDelete cur s T = none) ∧
    (∀ (cur : Text) (T : Int), cur ≠ [] →
       msDelete cur (-1) T =
         some (cur.take (cur.length - 1),
               remapDelete (cur.length - 1) cur.length T)) ∧
    (∀ (original current : Text),
       endsWithNL original = false → endsWithNL current = true →
       newlineReconcile original current = [TrailCall.deleteAt (-1)]) := by
  refine ⟨?_, ?_, ?_, ?_, ?_⟩
  · intro cur s e txt T h
    unfold msUpdate
    rw [if_neg (by omega)]
  · intro cur k txt T h
    unfold msInsert
    rw [if_neg (by omega)]
  · intro cur s T h
    unfold msDelete
    by_cases hs : s < 0
    · simp only [if_pos hs]
      rw [if_neg (by omega)]
    · simp only [if_neg hs]
      rw [if_neg (by omega)]
  · intro cur T h
    have hlen : 1 ≤ cur.length := by
      cases cur with
      | nil => exact absurd rfl h
      | cons a t => simp
    unfold msDelete
    rw [if_pos (by omega), if_pos (by omega)]
    have hts : (((cur.length : Int) + -1).toNat) = cur.length - 1 := by omega
    rw [hts]
    simp [spliceText, List.drop_length]
  · intro original current h1 h2
    unfold newlineReconcile
    simp [h1, h2]

theorem c6_span_errors_witness :
    (("ab\n".toList ≠ []) ∧
     msDelete "ab\n".toList (-1) 5 =
       some ("ab\n".toList.take ("ab\n".toList.length - 1),
             remapDelete ("ab\n".toList.length - 1) "ab\n".toList.length 5)) ∧
    ((4 : Int) < 0 ∨ ("abc".toList.length : Int) < 4) ∧
    msInsert "abc".toList 4 "x".toList 0 = none :=
  ⟨⟨by decide, (c6_span_errors.2.2.2.1 "ab\n".toList 5 (by decide))⟩,
   Or.inr (by decide),
   c6_span_errors.2.1 "abc".toList 4 "x".toList 0 (Or.inr (by decide))⟩

theorem remapUpdate_sentinel (s e len : Nat) : remapUpdate s e len (-1) = -1 := by
  simp [remapUpdate]

theorem remapDelete_sentinel (s e : Nat) : remapDelete s e (-1) = -1 := by
  simp [remapDelete]

theorem remapInsert_sentinel (k len : Nat) : remapInsert k len (-1) = -1 := by
  simp [remapInsert]

theorem foldl_snd_sentinel {α : Type} (g : Text × Int → α → Text × Int)
    (hg : ∀ acc x, acc.2 = -1 → (g acc x).2 = -1) :
    ∀ (L : List α) (p : Text × Int), p.2 = -1 → (L.foldl g p).2 = -1 := by
  intro L
  induction L with
  | nil => intro p hp; exact hp
  | cons a t ih => intro p hp; exact ih (g p a) (hg p a hp)

/-- C9: with tracking disabled (tracked offset -1), every remap step returns
-1 unchanged — the list-marker cleanups, the heading-level shift, the heading
renumbering, and the upload pass all propagate the sentinel — and the editor
cursor is set only when the final offset differs from -1. -/
theorem c9_sentinel_propagation :
    (∀ cur, (removeExtraSpacesPass cur (-1)).2 = -1) ∧
    (∀ cur, (addTrailingSpacesPass cur (-1)).2 = -1) ∧
    (∀ cur target, (adjustHeaderLevels cur target (-1)).2 = -1) ∧
    (∀ cur, (addHeaderNumbering cur (-1)).2 = -1) ∧
    (∀ cfg? f0 cands cur, ((uploadImagesPass cfg? f0 cands cur (-1)).1).2 = -1) ∧
    (∀ s cur, (formatPasses s cur (-1)).2 = -1) ∧
    shouldSetCursor (-1) = false ∧
    (∀ off : Int, off ≠ -1 → shouldSetCursor off = true) := by
  have hrm : ∀ cur, (removeExtraSpacesPass cur (-1)).2 = -1 := by
    intro cur
    exact foldl_snd_sentinel _
      (fun acc se h => by simp [h, remapDelete_sentinel]) _ (cur, -1) rfl
  have hts : ∀ cur, (addTrailingSpacesPass cur (-1)).2 = -1 := by
    intro cur
    exact foldl_snd_sentinel _
      (fun acc k h => by simp [h, remapInsert_sentinel]) _ (cur, -1) rfl
  have hadj : ∀ cur target, (adjustHeaderLevels cur target (-1)).2 = -1 := by
    intro cur target
    exact foldl_snd_sentinel applyEdit
      (fun acc e h => by simp [applyEdit, h, remapUpdate_sentinel]) _ (cur, -1) rfl
  have hnum : ∀ cur, (addHeaderNumbering cur (-1)).2 = -1 := by
    intro cur
    exact foldl_snd_sentinel applyEdit
      (fun acc e h => by simp [applyEdit, h, remapUpdate_sentinel]) _ (cur, -1) rfl
  have hup : ∀ cfg? f0 cands cur,
      ((uploadImagesPass cfg? f0 cands cur (-1)).1).2 = -1 := by
    intro cfg? f0 cands cur
    cases cfg? with
    | none => rfl
    | some cfg =>
        simp only [uploadImagesPass]
        split_ifs with h1 h2 h3
        · rfl
        · rfl
        · rfl
        · exact foldl_snd_sentinel _
            (fun acc p h => by
              cases hp : p.2 with
              | none => simp [hp, h]
              | some u => simp [hp, h, remapUpdate_sentinel]) _ (cur, -1) rfl
  refine ⟨hrm, hts, hadj, hnum, hup, ?_, rfl, fun off h => by simp [shouldSetCursor, h]⟩
  intro s cur
  unfold formatPasses
  split_ifs <;> simp only [hrm, hts, hadj, hnum]

theorem c9_sentinel_propagation_witness :
    ((5 : Int) ≠ -1 ∧ shouldSetCursor 5 = true) ∧
    (removeExtraSpacesPass "- a".toList (-1)).2 = -1 :=
  ⟨⟨by decide, c9_sentinel_propagation.2.2.2.2.2.2.2 5 (by decide)⟩,
   c9_sentinel_propagation.1 "- a".toList⟩

theorem le_lineOff : ∀ (A : List Text) (off : Nat), off ≤ lineOff off A := by
  intro A
  induction A with
  | nil => intro off; exact Nat.le_refl off
  | cons a t ih =>
      intro off
      calc off ≤ off + a.length + 1 := by omega
        _ ≤ lineOff (off + a.length + 1) t := ih _

theorem headerMatchFull_decomp (l : Text) (ind hs sp tx : Text)
    (h : headerMatchFull l = some (ind, hs, sp, tx)) :
    l = ind ++ hs ++ sp ++ tx ∧ hs ≠ [] ∧ sp ≠ [] ∧
    ind = l.takeWhile isWS ∧
    hs = (l.dropWhile isWS).takeWhile (fun c => c = '#') := by
  simp only [headerMatchFull] at h
  split_ifs at h with hc
  · simp only [Option.some.injEq, Prod.mk.injEq] at h
    obtain ⟨h1, h2, h3, h4⟩ := h
    have e1 : l.takeWhile isWS ++ l.dropWhile isWS = l :=
      List.takeWhile_append_dropWhile _ _
    have e2 : (l.dropWhile isWS).takeWhile (fun c => c = '#') ++
        (l.dropWhile isWS).dropWhile (fun c => c = '#') = l.dropWhile isWS :=
      List.takeWhile_append_dropWhile _ _
    have e3 : ((l.dropWhile isWS).dropWhile (fun c => c = '#')).takeWhile isWS ++
        ((l.dropWhile isWS).dropWhile (fun c => c = '#')).dropWhile isWS =
        (l.dropWhile isWS).dropWhile (fun c => c = '#') :=
      List.takeWhile_append_dropWhile _ _
    refine ⟨?_, ?_, ?_, h1.symm, h2.symm⟩
    · rw [← h1, ← h2, ← h3, ← h4, List.append_assoc, List.append_assoc, e3, e2, e1]
    · rw [← h2]; exact hc.1
    · rw [← h3]; exact hc.2

theorem takeWhile_head {p : Char → Bool} :
    ∀ (l : Text) (c : Char) (t : Text), l.takeWhile p = c :: t → p c = true := by
  intro l c t h
  cases l with
  | nil => cases h
  | cons a r =>
      rw [List.takeWhile_cons] at h
      by_cases ha : p a
      · rw [if_pos ha] at h
        injection h with h1 _
        rw [h1] at ha
        exact ha
      · rw [if_neg ha] at h
        cases h

theorem isPrefixOf_cons_false (a b : Char) (t1 t2 : Text) (h : (a == b) = false) :
    List.isPrefixOf (a :: t1) (b :: t2) = false := by
  simp only [List.isPrefixOf, h, Bool.false_and]

theorem headerMatch_not_fence (l : Text) (h : (headerMatchFull l).isSome = true) :
    isFence l = false := by
  cases hm : headerMatchFull l with
  | none => rw [hm] at h; cases h
  | some q =>
      obtain ⟨ind, hs, sp, tx⟩ := q
      obtain ⟨_, hne, _, _, hhs⟩ := headerMatchFull_decomp l ind hs sp tx hm
      cases hhs2 : hs with
      | nil => exact absurd hhs2 hne
      | cons c t =>
          have hc : c = '#' := by
            have := takeWhile_head (l.dropWhile isWS) c t (by rw [← hhs, hhs2])
            simpa using this
          have hdw : l.dropWhile isWS =
              c :: (t ++ (l.dropWhile isWS).dropWhile (fun x => x = '#')) := by
            conv_lhs => rw [← List.takeWhile_append_dropWhile
              (fun x => x = '#') (l.dropWhile isWS), ← hhs, hhs2]
            rw [List.cons_append]
          have hfm : fenceMarker = Char.ofNat 96 :: "``".toList := by decide
          rw [isFence, hdw, hc, hfm]
          exact isPrefixOf_cons_false _ _ _ _ (by decide)

theorem adjustLineEdit_bounds (shift : Int) (l : Text) (off : Nat) (e : Edit)
    (he : e ∈ adjustLineEdit shift l off) :
    off ≤ e.start ∧ e.start ≤ e.stop ∧ e.stop ≤ off + l.length := by
  unfold adjustLineEdit at he
  cases hm : headerMatchFull l with
  | none => rw [hm] at he; cases he
  | some q =>
      obtain ⟨ind, hs, sp, tx⟩ := q
      simp only [hm] at he
      split_ifs at he with hc
      · simp only [List.mem_singleton] at he
        subst he
        obtain ⟨hl, _, _, _, _⟩ := headerMatchFull_decomp l ind hs sp tx hm
        have hlen : ind.length + hs.length ≤ l.length := by
          rw [hl]
          simp [List.length_append]
        dsimp only
        omega
      · cases he

theorem numTokenMatch_eq (tx tok : Text) (h : numTokenMatch tx = some tok) :
    tok = tx.takeWhile (fun c => c.isDigit || c = '.') := by
  simp only [numTokenMatch] at h
  split_ifs at h with h1
  cases hr : tx.drop (tx.takeWhile (fun c => c.isDigit || c = '.')).length with
  | nil =>
      simp only [hr] at h
      injection h with h'
      exact h'.symm
  | cons c r =>
      simp only [hr] at h
      split_ifs at h with h2
      injection h with h'
      exact h'.symm

theorem length_takeWhile_le {p : Char → Bool} (l : Text) :
    (l.takeWhile p).length ≤ l.length := by
  have := congrArg List.length (List.takeWhile_append_dropWhile p l)
  simp only [List.length_append] at this
  omega

theorem numberLineEdit_bounds (ml : Nat) (l : Text) (off : Nat) (cs : List Nat)
    (e : Edit) (he : e ∈ numberLineEdit ml l off cs) :
    off ≤ e.start ∧ e.start ≤ e.stop ∧ e.stop ≤ off + l.length := by
  unfold numberLineEdit at he
  cases hm : headerMatchFull l with
  | none => rw [hm] at he; cases he
  | some q =>
      obtain ⟨ind, hs, sp, tx⟩ := q
      simp only [hm] at he
      obtain ⟨hl, _, _, _, _⟩ := headerMatchFull_decomp l ind hs sp tx hm
      have hlen : ind.length + hs.length + sp.length + tx.length = l.length := by
        rw [hl]
        simp [List.length_append]
        omega
      cases hn : numTokenMatch tx with
      | some tok =>
          simp only [hn] at he
          split_ifs at he with hne
          · simp only [List.mem_singleton] at he
            subst he
            have htok : tok.length ≤ tx.length := by
              rw [numTokenMatch_eq tx tok hn]
              exact length_takeWhile_le tx
            dsimp only
            omega
          · cases he
      | none =>
          simp only [hn] at he
          simp only [List.mem_singleton] at he
          subst he
          dsimp only
          omega

theorem adjustEditsAux_start (shift : Int) :
    ∀ (L : List Text) (st : Bool) (off : Nat) (e : Edit),
      e ∈ adjustEditsAux shift L st off → off ≤ e.start ∧ e.start ≤ e.stop := by
  intro L
  induction L with
  | nil => intro st off e he; cases he
  | cons l rest ih =>
      intro st off e he
      simp only [adjustEditsAux, List.mem_append] at he
      cases he with
      | inl hh =>
          by_cases hst : toggleF st l
          · rw [if_pos hst] at hh; cases hh
          · rw [if_neg hst] at hh
            have := adjustLineEdit_bounds shift l off e hh
            exact ⟨this.1, this.2.1⟩
      | inr ht =>
          have := ih (toggleF st l) (off + l.length + 1) e ht
          exact ⟨by omega, this.2⟩

theorem numberEditsAux_start (ml : Nat) :
    ∀ (L : List Text) (st : Bool) (off : Nat) (cs : List Nat) (e : Edit),
      e ∈ numberEditsAux ml L st off cs → off ≤ e.start ∧ e.start ≤ e.stop := by
  intro L
  induction L with
  | nil => intro st off cs e he; cases he
  | cons l rest ih =>
      intro st off cs e he
      simp only [numberEditsAux] at he
      by_cases hst : toggleF st l
      · rw [if_pos hst] at he
        have := ih (toggleF st l) (off + l.length + 1) cs e he
        exact ⟨by omega, this.2⟩
      · rw [if_neg hst] at he
        rw [List.mem_append] at he
        cases he with
        | inl hh =>
            have := numberLineEdit_bounds ml l off cs e hh
            exact ⟨this.1, this.2.1⟩
        | inr ht =>
            have := ih (toggleF st l) (off + l.length + 1) (numberLineCs ml l cs) e ht
            exact ⟨by omega, this.2⟩

theorem adjustEditsAux_avoid (shift : Int) :
    ∀ (A : List Text) (l : Text) (B : List Text) (st : Bool) (off : Nat),
      isFence l = false →
      checkState (A ++ l :: B) A.length st = true →
      ∀ e ∈ adjustEditsAux shift (A ++ l :: B) st off,
        ¬(lineOff off A ≤ e.start ∧ e.stop ≤ lineOff off A + l.length) := by
  intro A
  induction A with
  | nil =>
      intro l B st off hl hst e he hcont
      have hst' : st = true := by simpa [checkState, toggleF, hl] using hst
      simp only [List.nil_append, adjustEditsAux, toggleF, hl, if_false, hst',
        if_true, List.nil_append] at he
      have hb := adjustEditsAux_start shift B true (off + l.length + 1) e he
      simp only [lineOff, List.foldl_nil] at hcont
      omega
  | cons a A' ih =>
      intro l B st off hl hst e he hcont
      simp only [List.cons_append, List.length_cons, checkState] at hst
      simp only [List.cons_append, adjustEditsAux, List.mem_append] at he
      have hlo : lineOff off (a :: A') = lineOff (off + a.length + 1) A' := rfl
      rw [hlo] at hcont
      cases he with
      | inl hh =>
          by_cases hst2 : toggleF st a
          · rw [if_pos hst2] at hh; cases hh
          · rw [if_neg hst2] at hh
            have hb := adjustLineEdit_bounds shift a off e hh
            have hle := le_lineOff A' (off + a.length + 1)
            omega
      | inr ht =>
          exact ih l B (toggleF st a) (off + a.length + 1) hl hst e ht hcont

theorem numberEditsAux_avoid (ml : Nat) :
    ∀ (A : List Text) (l : Text) (B : List Text) (st : Bool) (off : Nat)
      (cs : List Nat),
      isFence l = false →
      checkState (A ++ l :: B) A.length st = true →
      ∀ e ∈ numberEditsAux ml (A ++ l :: B) st off cs,
        ¬(lineOff off A ≤ e.start ∧ e.stop ≤ lineOff off A + l.length) := by
  intro A
  induction A with
  | nil =>
      intro l B st off cs hl hst e he hcont
      have hst' : st = true := by simpa [checkState, toggleF, hl] using hst
      simp only [List.nil_append, numberEditsAux, toggleF, hl, if_false, hst',
        if_true] at he
      have hb := numberEditsAux_start ml B true (off + l.length + 1) cs e he
      simp only [lineOff, List.foldl_nil] at hcont
      omega
  | cons a A' ih =>
      intro l B st off cs hl hst e he hcont
      simp only [List.cons_append, List.length_cons, checkState] at hst
      simp only [List.cons_append, numberEditsAux] at he
      have hlo : lineOff off (a :: A') = lineOff (off + a.length + 1) A' := rfl
      rw [hlo] at hcont
      by_cases hst2 : toggleF st a
      · rw [if_pos hst2] at he
        exact ih l B (toggleF st a) (off + a.length + 1) cs hl hst e he hcont
      · rw [if_neg hst2] at he
        rw [List.mem_append] at he
        cases he with
        | inl hh =>
            have hb := numberLineEdit_bounds ml a off cs e hh
            have hle := le_lineOff A' (off + a.length + 1)
            omega
        | inr ht =>
            exact ih l B (toggleF st a) (off + a.length + 1)
              (numberLineCs ml a cs) hl hst e ht hcont

theorem scanStep_fst (acc : Bool × Nat × Bool) (l : Text) :
    (scanStep acc l).1 = toggleF acc.1 l := by
  simp only [scanStep]
  cases hm : headerMatchFull l with
  | none => simp only [hm]; split_ifs <;> rfl
  | some q =>
      obtain ⟨ind, hs, sp, tx⟩ := q
      simp only [hm]
      split_ifs <;> rfl

theorem scanStep_inBlock (acc : Bool × Nat × Bool) (l : Text)
    (h : toggleF acc.1 l = true) :
    scanStep acc l = (true, acc.2.1, acc.2.2) := by
  simp only [scanStep, h, if_pos]

theorem foldl_scanStep_fst :
    ∀ (L : List Text) (acc : Bool × Nat × Bool),
      (L.foldl scanStep acc).1 = L.foldl toggleF acc.1 := by
  intro L
  induction L with
  | nil => intro acc; rfl
  | cons l rest ih =>
      intro acc
      rw [List.foldl_cons, List.foldl_cons, ih, scanStep_fst]

theorem checkState_append :
    ∀ (A : List Text) (l : Text) (B : List Text) (st : Bool),
      checkState (A ++ l :: B) A.length st = toggleF (A.foldl toggleF st) l := by
  intro A
  induction A with
  | nil => intro l B st; rfl
  | cons a A' ih =>
      intro l B st
      simp only [List.cons_append, List.length_cons, checkState, List.foldl_cons]
      exact ih l B (toggleF st a)

theorem isFence_nil : isFence [] = false := by decide

theorem scanMin_ignore (A : List Text) (l : Text) (B : List Text)
    (hl : isFence l = false)
    (hst : checkState (A ++ l :: B) A.length false = true) :
    scanMin (A ++ l :: B) = scanMin (A ++ [] :: B) := by
  unfold scanMin
  rw [List.foldl_append, List.foldl_append, List.foldl_cons, List.foldl_cons]
  have haccA : (A.foldl scanStep (false, 100, false)).1 = A.foldl toggleF false :=
    foldl_scanStep_fst A (false, 100, false)
  have hstA : toggleF (A.foldl toggleF false) l = true := by
    rw [← checkState_append]; exact hst
  have htrue : A.foldl toggleF false = true := by
    simpa [toggleF, hl] using hstA
  have hyes : (A.foldl scanStep (false, 100, false)).1 = true := by
    rw [haccA, htrue]
  rw [scanStep_inBlock _ l (by simp [toggleF, hl, hyes]),
      scanStep_inBlock _ [] (by simp [toggleF, isFence_nil, hyes])]

/-- C3: a heading-looking line (leading `#` run then whitespace) that lies
inside a fenced code block — the in-code-block state at the moment the line is
inspected is true — is never modified: neither the heading-level shift pass
nor the heading renumbering pass produces an edit whose span lies on that
line, and the line does not contribute to the minimum-level scan (replacing it
by an empty line leaves the scan result unchanged). -/
theorem c3_fenced_heading_untouched (cur : Text) (target : Nat)
    (A B : List Text) (l : Text)
    (hsplit : splitLines cur = A ++ l :: B)
    (hhead : (headerMatchFull l).isSome = true)
    (hblock : checkState (A ++ l :: B) A.length false = true) :
    (∀ e ∈ adjustEditsOf cur target,
        ¬(lineOff 0 A ≤ e.start ∧ e.stop ≤ lineOff 0 A + l.length)) ∧
    (∀ e ∈ numberEditsOf cur,
        ¬(lineOff 0 A ≤ e.start ∧ e.stop ≤ lineOff 0 A + l.length)) ∧
    scanMin (splitLines cur) = scanMin (A ++ [] :: B) := by
  have hl : isFence l = false := headerMatch_not_fence l hhead
  refine ⟨?_, ?_, ?_⟩
  · intro e he
    simp only [adjustEditsOf, hsplit] at he
    split_ifs at he with h1 h2
    · exact absurd he (List.not_mem_nil e)
    · exact absurd he (List.not_mem_nil e)
    · exact adjustEditsAux_avoid _ A l B false 0 hl hblock e he
  · intro e he
    simp only [numberEditsOf, hsplit] at he
    split_ifs at he with h1
    · exact absurd he (List.not_mem_nil e)
    · exact numberEditsAux_avoid _ A l B false 0 [] hl hblock e he
  · rw [hsplit]
    exact scanMin_ignore A l B hl hblock

theorem c3_fenced_heading_untouched_witness :
    (splitLines "```\n# h\n```".toList =
       ["```".toList] ++ "# h".toList :: ["```".toList] ∧
     (headerMatchFull "# h".toList).isSome = true ∧
     checkState (["```".toList] ++ "# h".toList :: ["```".toList])
       (["```".toList] : List Text).length false = true) ∧
    ((∀ e ∈ adjustEditsOf "```\n# h\n```".toList 2,
        ¬(lineOff 0 ["```".toList] ≤ e.start ∧
          e.stop ≤ lineOff 0 ["```".toList] + "# h".toList.length)) ∧
     (∀ e ∈ numberEditsOf "```\n# h\n```".toList,
        ¬(lineOff 0 ["```".toList] ≤ e.start ∧
          e.stop ≤ lineOff 0 ["```".toList] + "# h".toList.length)) ∧
     scanMin (splitLines "```\n# h\n```".toList) =
       scanMin (["```".toList] ++ [] :: ["```".toList])) :=
  ⟨⟨by decide, by decide, by decide⟩,
   c3_fenced_heading_untouched "```\n# h\n```".toList 2
     ["```".toList] ["```".toList] "# h".toList
     (by decide) (by decide) (by decide)⟩
